import Mathlib

/-!
Verification development for the evdev/uinput macro toggle tool
(`macro_toggle.py`).  The Python source is shallowly embedded: pure
functions become Lean functions, the mutable held-key ledger and the
event trace become explicit state, device writes become trace events,
and the write-failure behaviour of the device is an oracle
`wf : Nat -> Bool` (true = writing that code raises).  Exceptions are
modelled with `Except String`; since Python exceptions do not roll back
already-performed writes, stateful operations return the state reached
so far together with the `Except` result.
-/

/-- One observable operation on the uinput device: `write etype code value`
models `ui.write(etype, code, value)`, `syn` models `ui.syn()`. -/
inductive OutEvent where
  | write (etype : Nat) (code : Nat) (value : Int)
  | syn
deriving DecidableEq, Repr

/-! ### Linux input event-code constants (`evdev.ecodes`) used by the source -/

def EV_KEY : Nat := 1
def EV_REL : Nat := 2
def REL_X : Nat := 0
def REL_Y : Nat := 1
def REL_WHEEL : Nat := 8
def BTN_LEFT : Nat := 272
def BTN_RIGHT : Nat := 273
def KEY_LEFTCTRL : Nat := 29
def KEY_RIGHTCTRL : Nat := 97
def KEY_LEFTSHIFT : Nat := 42
def KEY_RIGHTSHIFT : Nat := 54
def KEY_LEFTALT : Nat := 56
def KEY_RIGHTALT : Nat := 100
def KEY_LEFTMETA : Nat := 125
def KEY_RIGHTMETA : Nat := 126
def KEY_SPACE : Nat := 57
def KEY_E : Nat := 18

/-! ### Python `set` of ints, modelled as a duplicate-free `List Nat`.
`setAdd` is `set.add`, `setDiscard` is `set.discard`.  The ledger's
`mark_down`/`mark_up` and the listener's pressed-set maintenance both
use these. -/

def setAdd (c : Nat) (l : List Nat) : List Nat :=
  if l.contains c then l else l.concat c

def setDiscard (c : Nat) (l : List Nat) : List Nat :=
  l.erase c

/-! ### Python string primitives, over `List Char` (strings are unpacked
with `String.toList` at the API boundary so everything computes). -/

/-- Python `str.strip()`. -/
def pyStrip (l : List Char) : List Char :=
  ((l.dropWhile Char.isWhitespace).reverse.dropWhile Char.isWhitespace).reverse

/-- Python `str.lower()`. -/
def pyLower (l : List Char) : List Char := l.map Char.toLower

/-! ### `_char_to_keycode` -/

/-- `getattr(ecodes, f"KEY_{ch.upper()}")` for a lowercase letter. -/
def letterCode (c : Char) : Nat :=
  match c with
  | 'a' => 30 | 'b' => 48 | 'c' => 46 | 'd' => 32 | 'e' => 18
  | 'f' => 33 | 'g' => 34 | 'h' => 35 | 'i' => 23 | 'j' => 36
  | 'k' => 37 | 'l' => 38 | 'm' => 50 | 'n' => 49 | 'o' => 24
  | 'p' => 25 | 'q' => 16 | 'r' => 19 | 's' => 31 | 't' => 20
  | 'u' => 22 | 'v' => 47 | 'w' => 17 | 'x' => 45 | 'y' => 21
  | 'z' => 44
  | _ => 0

/-- `getattr(ecodes, f"KEY_{ch}")` for a digit. -/
def digitCode (c : Char) : Nat :=
  match c with
  | '0' => 11 | '1' => 2 | '2' => 3 | '3' => 4 | '4' => 5
  | '5' => 6 | '6' => 7 | '7' => 8 | '8' => 9 | '9' => 10
  | _ => 0

/-- The fixed punctuation table of `_char_to_keycode`. -/
def punctCode (c : Char) : Option Nat :=
  if c = '`' then some 41
  else if c = '-' then some 12
  else if c = '=' then some 13
  else if c = '[' then some 26
  else if c = ']' then some 27
  else if c = '\\' then some 43
  else if c = ';' then some 39
  else if c = Char.ofNat 39 then some 40  -- apostrophe
  else if c = ',' then some 51
  else if c = '.' then some 52
  else if c = '/' then some 53
  else none

/-- `_char_to_keycode(ch)`: lowercase, then letters, digits, space and a
fixed punctuation set; anything else raises `ValueError`. -/
def char_to_keycode (ch : Char) : Except String Nat :=
  let c := ch.toLower
  if 'a' ≤ c ∧ c ≤ 'z' then .ok (letterCode c)
  else if '0' ≤ c ∧ c ≤ '9' then .ok (digitCode c)
  else if c = ' ' then .ok KEY_SPACE
  else
    match punctCode c with
    | some k => .ok k
    | none => .error "Unsupported char key"

/-! ### Python `int()` on a string (used for the `<fN>` hotkey token).
Python's `int` strips surrounding whitespace, accepts one optional sign,
then digits with single underscores between digit groups. -/

def pyDigitsAux : Nat → List Char → Option Nat
  | acc, [] => some acc
  | acc, c :: cs =>
    if c.isDigit then pyDigitsAux (acc * 10 + (c.toNat - 48)) cs
    else if c = '_' then
      match cs with
      | [] => none
      | c' :: cs' =>
        if c'.isDigit then pyDigitsAux (acc * 10 + (c'.toNat - 48)) cs' else none
    else none

def pyDigits : List Char → Option Nat
  | [] => none
  | c :: cs => if c.isDigit then pyDigitsAux (c.toNat - 48) cs else none

/-- `int(s)` for a decimal string, `none` when Python raises `ValueError`. -/
def pyInt? (s : List Char) : Option Int :=
  match pyStrip s with
  | '+' :: cs => (pyDigits cs).map (fun n => (n : Int))
  | '-' :: cs => (pyDigits cs).map (fun n => -(n : Int))
  | cs => (pyDigits cs).map (fun n => (n : Int))

/-- `int(s)` for a string the caller has checked with `str.isdigit()`:
plain positional value (leading zeros allowed). -/
def digitsVal (cs : List Char) : Nat :=
  cs.foldl (fun a c => a * 10 + (c.toNat - 48)) 0

/-- `getattr(ecodes, f"KEY_F{n}")`: defined for F1..F24, otherwise
`AttributeError` (modelled as `none`). -/
def fKeyCode (n : Int) : Option Nat :=
  if 1 ≤ n ∧ n ≤ 10 then some (58 + n).toNat
  else if n = 11 then some 87
  else if n = 12 then some 88
  else if 13 ≤ n ∧ n ≤ 24 then some (170 + n).toNat
  else none

/-! ### `parse_hotkey` -/

/-- The body of `parse_hotkey`'s per-token `if`/`elif` chain.  The token
has already been stripped and lowercased. -/
def parse_hotkey_token (p : List Char) : Except String (List Nat) :=
  if p = "<ctrl>".toList ∨ p = "<control>".toList then .ok [KEY_LEFTCTRL, KEY_RIGHTCTRL]
  else if p = "<shift>".toList then .ok [KEY_LEFTSHIFT, KEY_RIGHTSHIFT]
  else if p = "<alt>".toList then .ok [KEY_LEFTALT, KEY_RIGHTALT]
  else if p = "<meta>".toList ∨ p = "<super>".toList ∨ p = "<win>".toList then
    .ok [KEY_LEFTMETA, KEY_RIGHTMETA]
  else if "<f".toList.isPrefixOf p ∧ ">".toList.isSuffixOf p then
    match pyInt? ((p.drop 2).dropLast) with
    | none => .error "invalid literal for int()"
    | some n =>
      match fKeyCode n with
      | some k => .ok [k]
      | none => .error "AttributeError: KEY_F out of range"
  else
    match p with
    | [c] => (char_to_keycode c).map (fun k => [k])
    | _ => .error "Unsupported hotkey token"

/-- `parse_hotkey(spec)`: split on `+`, strip, drop empty parts,
lowercase, then map each token through the recognition chain.  Returns
the list of alternative-sets (each a set of acceptable codes). -/
def parse_hotkey (spec : String) : Except String (List (List Nat)) :=
  let parts := (spec.toList.splitOn '+').filterMap
    (fun p => let q := pyStrip p; if q = [] then none else some (pyLower q))
  parts.mapM parse_hotkey_token

/-- `hotkey_satisfied(pressed, req)`: every alternative-set has at least
one code present in the pressed-set. -/
def hotkey_satisfied (pressed : List Nat) (req : List (List Nat)) : Bool :=
  req.all (fun alt => alt.any (fun code => pressed.contains code))

/-! ### `parse_macro_key` -/

/-- The `Key.*` name table of `parse_macro_key`. -/
def keyNameCode (name : List Char) : Option Nat :=
  if name = "enter".toList then some 28
  else if name = "esc".toList then some 1
  else if name = "tab".toList then some 15
  else if name = "space".toList then some 57
  else if name = "backspace".toList then some 14
  else if name = "delete".toList then some 111
  else if name = "up".toList then some 103
  else if name = "down".toList then some 108
  else if name = "left".toList then some 105
  else if name = "right".toList then some 106
  else if name = "shift".toList then some KEY_LEFTSHIFT
  else if name = "shift_l".toList then some KEY_LEFTSHIFT
  else if name = "shift_r".toList then some KEY_RIGHTSHIFT
  else if name = "ctrl".toList then some KEY_LEFTCTRL
  else if name = "ctrl_l".toList then some KEY_LEFTCTRL
  else if name = "ctrl_r".toList then some KEY_RIGHTCTRL
  else if name = "alt".toList then some KEY_LEFTALT
  else if name = "alt_l".toList then some KEY_LEFTALT
  else if name = "alt_r".toList then some KEY_RIGHTALT
  else none

/-- `parse_macro_key(raw)`: `Key.<name>` goes through the f-key check
(`name[0] = f` and the rest nonempty all-digits, per `str.isdigit`) and
the name table; a single character goes through `_char_to_keycode`;
anything else raises. -/
def parse_macro_key (raw : String) : Except String Nat :=
  let r := pyStrip raw.toList
  if "Key.".toList.isPrefixOf r then
    let name := r.drop 4
    if "f".toList.isPrefixOf name ∧ name.drop 1 ≠ [] ∧
        (name.drop 1).all Char.isDigit then
      match fKeyCode ((digitsVal (name.drop 1) : Nat) : Int) with
      | some k => .ok k
      | none => .error "AttributeError: KEY_F out of range"
    else
      match keyNameCode name with
      | some k => .ok k
      | none => .error "Unsupported Key.*"
  else
    match r with
    | [c] => char_to_keycode c
    | _ => .error "Unsupported key format"

/-! ### `HoldState`: the held-key ledger.
The Python `set` of held codes is the duplicate-free list `held`;
`ui` write failures are the oracle `wf` (the `try/except pass` in the
release loop swallows them but the loop still visits every code). -/

def mark_down (c : Nat) (held : List Nat) : List Nat := setAdd c held

def mark_up (c : Nat) (held : List Nat) : List Nat := setDiscard c held

/-- The `for c in codes: try: ui.write(EV_KEY, c, 0) except: pass` loop of
`release_all` / `release_all_return`: one release attempt per snapshot
code, failures swallowed, every code attempted. -/
def releaseLoop (wf : Nat → Bool) : List Nat → List OutEvent
  | [] => []
  | c :: cs => (if wf c then [] else [OutEvent.write EV_KEY c 0]) ++ releaseLoop wf cs

/-- `HoldState.release_all_return(ui)`: snapshot and clear the ledger,
release every snapshot code, one final `syn`, return the snapshot.
Result: (returned snapshot, new ledger, emitted events). -/
def release_all_return (wf : Nat → Bool) (held : List Nat) :
    List Nat × List Nat × List OutEvent :=
  (held, [], releaseLoop wf held ++ [OutEvent.syn])

/-- `HoldState.release_all(ui)`: same, discarding the snapshot.
Result: (new ledger, emitted events). -/
def release_all (wf : Nat → Bool) (held : List Nat) : List Nat × List OutEvent :=
  ([], releaseLoop wf held ++ [OutEvent.syn])

/-! ### `_wait_with_pause` -/

/-- One iteration of the `_wait_with_pause` loop as observed by the
worker: `stop` is `stop_event.is_set()` at the loop head, `run` is
`run_event.is_set()`, `stopIn` is the result of `stop_event.wait(dt)`
during a running tick, and `elapsed` is the wall-clock time
`time.monotonic() - t0` consumed by that running tick. -/
structure Tick where
  stop : Bool
  run : Bool
  stopIn : Bool
  elapsed : Rat
deriving DecidableEq, Repr

/-- `_wait_with_pause(seconds, stop_event, run_event)`, driven by the
tick observations.  Returns the remaining duration at exit (the Python
function returns `None`; the remaining value is its exit state).  An
exhausted observation list simply stops the model. -/
def wait_with_pause : Rat → List Tick → Rat
  | remaining, [] => remaining
  | remaining, t :: ts =>
    if remaining ≤ 0 then remaining
    else if t.stop then remaining
    else if t.run = false then wait_with_pause remaining ts
    else if t.stopIn then remaining
    else wait_with_pause (remaining - t.elapsed) ts

/-- Total wall-clock time of the ticks taken while the pause gate was
open (`run_event` set). -/
def runningElapsed (ts : List Tick) : Rat :=
  ((ts.filter (fun t => t.run)).map (fun t => t.elapsed)).sum

/-! ### Macro steps and the step interpreter `do_step` -/

/-- A `MacroStep`: the `"type"`-tagged dict of the configuration, with
the fields `do_step` reads.  `other` stands for any unrecognized
`"type"` tag. -/
inductive Step where
  | wait (seconds : Rat)
  | key (raw : String) (action : String)
  | combo (keys : List String)
  | mouseClick (button : String) (count : Int)
  | mouseButton (button : String) (action : String)
  | mouseMove (mode : String) (x y : Int)
  | mouseScroll (dy : Int)
  | other (tag : String)
deriving DecidableEq, Repr

/-- Worker-visible state: the held-key ledger and the device trace. -/
structure WState where
  hold : List Nat
  trace : List OutEvent
deriving DecidableEq, Repr

/-- `ui.write(et, code, v)`: appends to the trace, or raises (oracle `wf`)
leaving the state as it was. -/
def emit1 (wf : Nat → Bool) (et code : Nat) (v : Int) (s : WState) :
    Except String Unit × WState :=
  if wf code then (.error "device write failed", s)
  else (.ok (), ⟨s.hold, s.trace ++ [OutEvent.write et code v]⟩)

/-- `ui.syn()`. -/
def synS (s : WState) : WState := ⟨s.hold, s.trace ++ [OutEvent.syn]⟩

/-- Sequencing in the presence of exceptions: an exception propagates but
keeps the state already reached (Python writes are not rolled back). -/
def seqW (r : Except String Unit × WState) (k : WState → Except String Unit × WState) :
    Except String Unit × WState :=
  match r.1 with
  | .ok _ => k r.2
  | .error e => (.error e, r.2)

/-- `for c in codes: ui.write(EV_KEY, c, v)` — a failure aborts the loop
and propagates. -/
def writeAll (wf : Nat → Bool) (v : Int) : List Nat → WState → Except String Unit × WState
  | [], s => (.ok (), s)
  | c :: cs, s => seqW (emit1 wf EV_KEY c v s) (fun s1 => writeAll wf v cs s1)

/-- The `for _ in range(max(1, count))` tap-cycle loop of `mouse_click`. -/
def clickLoop (wf : Nat → Bool) (btn : Nat) : Nat → WState → Except String Unit × WState
  | 0, s => (.ok (), s)
  | n + 1, s =>
    seqW (emit1 wf EV_KEY btn 1 s) (fun s1 =>
    seqW (emit1 wf EV_KEY btn 0 s1) (fun s2 =>
      clickLoop wf btn n (synS s2)))

/-- The body of `do_step` after the `stop_event` check (every branch but
`wait`). -/
def do_step_active (wf : Nat → Bool) (step : Step) (s : WState) :
    Except String Unit × WState :=
  match step with
  | .wait _secs => (.ok (), s)
  | .key raw action =>
    match parse_macro_key raw with
    | .error e => (.error e, s)
    | .ok code =>
      if action = "tap" then
        seqW (emit1 wf EV_KEY code 1 s) (fun s1 =>
        seqW (emit1 wf EV_KEY code 0 s1) (fun s2 => (.ok (), synS s2)))
      else if action = "press" then
        seqW (emit1 wf EV_KEY code 1 s) (fun s1 =>
          (.ok (), ⟨mark_down code s1.hold, (synS s1).trace⟩))
      else if action = "release" then
        seqW (emit1 wf EV_KEY code 0 s) (fun s1 =>
          (.ok (), ⟨mark_up code s1.hold, (synS s1).trace⟩))
      else (.error "key.action must be tap/press/release", s)
  | .combo raws =>
    match raws.mapM parse_macro_key with
    | .error e => (.error e, s)
    | .ok codes =>
      seqW (writeAll wf 1 codes s) (fun s1 =>
      seqW (writeAll wf 0 codes.reverse s1) (fun s2 => (.ok (), synS s2)))
  | .mouseClick button count =>
    let btn := if button = "left" then BTN_LEFT else BTN_RIGHT
    clickLoop wf btn (max 1 count).toNat s
  | .mouseButton button action =>
    let btn := if button = "left" then BTN_LEFT else BTN_RIGHT
    if action = "tap" then
      seqW (emit1 wf EV_KEY btn 1 s) (fun s1 =>
      seqW (emit1 wf EV_KEY btn 0 s1) (fun s2 => (.ok (), synS s2)))
    else if action = "press" then
      seqW (emit1 wf EV_KEY btn 1 s) (fun s1 =>
        (.ok (), ⟨mark_down btn s1.hold, (synS s1).trace⟩))
    else if action = "release" then
      seqW (emit1 wf EV_KEY btn 0 s) (fun s1 =>
        (.ok (), ⟨mark_up btn s1.hold, (synS s1).trace⟩))
    else (.error "mouse_button.action must be tap/press/release", s)
  | .mouseMove mode x y =>
    if mode ≠ "relative" then (.error "mouse_move.mode is relative only", s)
    else
      seqW (emit1 wf EV_REL REL_X x s) (fun s1 =>
      seqW (emit1 wf EV_REL REL_Y y s1) (fun s2 => (.ok (), synS s2)))
  | .mouseScroll dy =>
    if dy ≠ 0 then
      seqW (emit1 wf EV_REL REL_WHEEL dy s) (fun s1 => (.ok (), synS s1))
    else (.ok (), s)
  | .other _tag => (.error "Unknown step.type", s)

/-- `do_step(step, stop_event, run_event, ui, hold)`: a `wait` step runs
the pausable wait (device-trace neutral, modelled by `wait_with_pause`);
every other step first checks `stop_event.is_set()` (`stopSet`) and is
skipped entirely when it is set. -/
def do_step (wf : Nat → Bool) (step : Step) (stopSet : Bool) (s : WState) :
    Except String Unit × WState :=
  match step with
  | .wait _secs => (.ok (), s)
  | st => if stopSet then (.ok (), s) else do_step_active wf st s

/-! ### The playback worker `MacroTool._run` -/

/-- The worker's per-step observations of the shared events: `stop1` is
`stop_event.is_set()` at the head of the for-loop body, `stop2` is the
check after the inner pause-wait loop (that loop exits only when the
stop or run event is set), `stopIn` is the check inside `do_step`. -/
structure StepOracle where
  stop1 : Bool
  stop2 : Bool
  stopIn : Bool
deriving DecidableEq, Repr

/-- The `for step in self.macro` body of `_run` (both branches use it):
per step, break on `stop1`, pause-wait, break on `stop2`, else run the
step; an interpreter error propagates with the state reached so far. -/
def runSeq (wf : Nat → Bool) : List Step → List StepOracle → WState →
    Except String Unit × WState
  | [], _, s => (.ok (), s)
  | step :: rest, os, s =>
    let o := os.headD ⟨false, false, false⟩
    if o.stop1 then (.ok (), s)
    else if o.stop2 then (.ok (), s)
    else seqW (do_step wf step o.stopIn s) (fun s' => runSeq wf rest os.tail s')

/-- The `while not self.stop_event.is_set()` outer loop of `_run` when
`loop` is configured.  Each iteration observes the outer stop check and
supplies the per-step oracles; the fuel bounds the observation window. -/
def runLoop (wf : Nat → Bool) (steps : List Step) :
    Nat → List (Bool × List StepOracle) → WState → Except String Unit × WState
  | 0, _, s => (.ok (), s)
  | n + 1, los, s =>
    let o := los.headD (true, [])
    if o.1 then (.ok (), s)
    else seqW (runSeq wf steps o.2 s) (fun s' => runLoop wf steps n los.tail s')

/-- The `try` body of `_run`: the looped or the single-pass execution of
the macro. -/
def runBody (wf : Nat → Bool) (loopFlag : Bool) (steps : List Step) (fuel : Nat)
    (los : List (Bool × List StepOracle)) (os : List StepOracle) (s : WState) :
    Except String Unit × WState :=
  if loopFlag then runLoop wf steps fuel los s else runSeq wf steps os s

/-- `MacroTool._run`: the `try` body followed by the `finally` clause
`self.hold.release_all(self.ui)` — executed on natural completion, on
observing cancellation, and when an interpreter error propagates. -/
def runWorker (wf : Nat → Bool) (loopFlag : Bool) (steps : List Step) (fuel : Nat)
    (los : List (Bool × List StepOracle)) (os : List StepOracle) (s : WState) :
    WState :=
  let r := runBody wf loopFlag steps fuel los os s
  ⟨[], r.2.trace ++ releaseLoop wf r.2.hold ++ [OutEvent.syn]⟩

/-! ### The controller's `pause` / `resume` -/

/-- Controller state visible to `pause`/`resume`: whether the worker
thread is alive (`running`), the two events, the ledger, the
`_paused_restore` stash, and the device trace. -/
structure Ctl where
  running : Bool
  runEv : Bool
  stopEv : Bool
  hold : List Nat
  restore : List Nat
  trace : List OutEvent
deriving DecidableEq, Repr

/-- `MacroTool.is_paused()`: running and the run event cleared. -/
def is_paused (c : Ctl) : Bool := c.running && !c.runEv

/-- `MacroTool.pause()`: no-op unless running and not already paused;
otherwise clear the run event, force-release the ledger and stash the
returned snapshot in `_paused_restore`. -/
def pause (wf : Nat → Bool) (c : Ctl) : Ctl :=
  if !c.running || is_paused c then c
  else
    let r := release_all_return wf c.hold
    ⟨c.running, false, c.stopEv, r.2.1, r.1, c.trace ++ r.2.2⟩

/-- The `for c in self._paused_restore` loop of `resume`: re-press and
re-record each stashed code; a failing write skips that code's
`mark_down` as well (both statements sit in the `try`). -/
def resumeLoop (wf : Nat → Bool) : List Nat → List Nat → List OutEvent →
    List Nat × List OutEvent
  | [], held, tr => (held, tr)
  | c :: cs, held, tr =>
    if wf c then resumeLoop wf cs held tr
    else resumeLoop wf cs (mark_down c held) (tr ++ [OutEvent.write EV_KEY c 1])

/-- `MacroTool.resume()`: no-op unless running and paused; otherwise
re-press every stashed code, one `syn`, clear the stash, set the run
event. -/
def resume (wf : Nat → Bool) (c : Ctl) : Ctl :=
  if !c.running || !is_paused c then c
  else
    let r := resumeLoop wf c.restore c.hold c.trace
    ⟨c.running, true, c.stopEv, r.1, [], r.2 ++ [OutEvent.syn]⟩

/-! ### The input listener `MacroTool.listen_forever` -/

/-- A raw event from the keyboard device: type, code and value
(1 = down, 0 = up, 2 = repeat). -/
structure KEv where
  typ : Nat
  code : Nat
  value : Nat
deriving DecidableEq, Repr

/-- Listener state for one hotkey: the pressed-set and the armed flag. -/
structure LState where
  pressed : List Nat
  armed : Bool
deriving DecidableEq, Repr

/-- One iteration of the `read_loop` body for one hotkey requirement:
skip non-key events; maintain the pressed-set on down/up (repeats leave
it unchanged); fire when satisfied while armed; set armed to the
negation of satisfied.  Returns (new state, fired?). -/
def listenStep (req : List (List Nat)) (s : LState) (e : KEv) : LState × Bool :=
  if e.typ ≠ EV_KEY then (s, false)
  else
    let p := if e.value = 1 then setAdd e.code s.pressed
             else if e.value = 0 then setDiscard e.code s.pressed
             else s.pressed
    let sat := hotkey_satisfied p req
    (⟨p, !sat⟩, sat && s.armed)

/-- Run the listener over a list of events, counting fires. -/
def listenRun (req : List (List Nat)) (s : LState) : List KEv → LState × Nat
  | [] => (s, 0)
  | e :: es =>
    let r := listenStep req s e
    let rest := listenRun req r.1 es
    (rest.1, (if r.2 then 1 else 0) + rest.2)

/-- The chord stays satisfied after each event of the list. -/
def allSat (req : List (List Nat)) : LState → List KEv → Bool
  | _, [] => true
  | s, e :: es =>
    let s' := (listenStep req s e).1
    hotkey_satisfied s'.pressed req && allSat req s' es

/-! ### Ledger action sequences (for the round-trip property) -/

/-- An abstract ledger action: what a `press`/`release` step does to the
held-key ledger. -/
inductive HAct where
  | press (c : Nat)
  | release (c : Nat)
deriving DecidableEq, Repr

/-- Apply one ledger action (`mark_down` for press, `mark_up` for
release). -/
def applyAct (held : List Nat) (a : HAct) : List Nat :=
  match a with
  | .press c => mark_down c held
  | .release c => mark_up c held

/-! ## Helper lemmas -/

instance {ε α : Type} [DecidableEq ε] [DecidableEq α] : DecidableEq (Except ε α) :=
  fun x y =>
    match x, y with
    | .ok a, .ok b =>
      if h : a = b then isTrue (by rw [h]) else isFalse (by intro he; cases he; exact h rfl)
    | .error e, .error f =>
      if h : e = f then isTrue (by rw [h]) else isFalse (by intro he; cases he; exact h rfl)
    | .ok _, .error _ => isFalse (by intro he; cases he)
    | .error _, .ok _ => isFalse (by intro he; cases he)

theorem setAdd_nodup {c : Nat} {l : List Nat} (h : l.Nodup) : (setAdd c l).Nodup := by
  by_cases hc : c ∈ l
  · simp [setAdd, hc, h]
  · simp [setAdd, hc, List.nodup_append, h]

theorem applyAct_nodup {l : List Nat} (h : l.Nodup) (a : HAct) : (applyAct l a).Nodup := by
  cases a with
  | press c => exact setAdd_nodup h
  | release c => exact h.erase c

theorem foldl_applyAct_nodup (acts : List HAct) :
    ∀ {l : List Nat}, l.Nodup → (acts.foldl applyAct l).Nodup := by
  induction acts with
  | nil => intro l h; simpa using h
  | cons a as ih => intro l h; exact ih (applyAct_nodup h a)

/-- The ledger after running a sequence of press/release actions from the
empty ledger. -/
def ledgerAfter (acts : List HAct) : List Nat := acts.foldl applyAct []

theorem ledgerAfter_nodup (acts : List HAct) : (ledgerAfter acts).Nodup :=
  foldl_applyAct_nodup acts List.nodup_nil

theorem releaseLoop_eq (wf : Nat → Bool) (l : List Nat) :
    releaseLoop wf l =
      (l.filter (fun c => !wf c)).map (fun c => OutEvent.write EV_KEY c 0) := by
  induction l with
  | nil => rfl
  | cons c cs ih =>
    by_cases h : wf c
    · simp [releaseLoop, h, ih]
    · simp [releaseLoop, h, ih]

theorem releaseLoop_all_ok (l : List Nat) :
    releaseLoop (fun _ => false) l = l.map (fun c => OutEvent.write EV_KEY c 0) := by
  simp [releaseLoop_eq]

theorem mem_releaseLoop {wf : Nat → Bool} {l : List Nat} {c : Nat}
    (hc : c ∈ l) (hw : wf c = false) :
    OutEvent.write EV_KEY c 0 ∈ releaseLoop wf l := by
  rw [releaseLoop_eq]
  exact List.mem_map_of_mem _ (List.mem_filter.mpr ⟨hc, by simp [hw]⟩)

theorem writeAll_ok (wf : Nat → Bool) (v : Int) :
    ∀ (codes : List Nat) (s : WState), (∀ c ∈ codes, wf c = false) →
      writeAll wf v codes s =
        (.ok (), ⟨s.hold, s.trace ++ codes.map (fun c => OutEvent.write EV_KEY c v)⟩) := by
  intro codes
  induction codes with
  | nil => intro s _; simp [writeAll]
  | cons c cs ih =>
    intro s h
    have hc : wf c = false := h c (List.mem_cons_self c cs)
    have hcs : ∀ x ∈ cs, wf x = false := fun x hx => h x (List.mem_cons_of_mem c hx)
    simp [writeAll, seqW, emit1, hc, ih _ hcs]

/-- One tap cycle of a mouse button: down, up, sync. -/
def clickCycle (btn : Nat) : List OutEvent :=
  [OutEvent.write EV_KEY btn 1, OutEvent.write EV_KEY btn 0, OutEvent.syn]

theorem clickLoop_ok (wf : Nat → Bool) (btn : Nat) (h : wf btn = false) :
    ∀ (n : Nat) (s : WState), clickLoop wf btn n s =
      (.ok (), ⟨s.hold, s.trace ++ (List.replicate n (clickCycle btn)).flatten⟩) := by
  intro n
  induction n with
  | zero => intro s; simp [clickLoop]
  | succ m ih =>
    intro s
    simp [clickLoop, seqW, emit1, h, synS, ih, clickCycle, List.replicate_succ]

/-! ## Claim theorems -/

/-- C2: for any sequence of press/release actions on the held-key ledger,
`release_all_return` returns the outstanding snapshot, leaves the ledger
empty, emits one release (value 0) per outstanding code — skipping in
the trace only codes whose write fails while still attempting every code
(the emitted releases are exactly the filter of the snapshot) — and
finishes with one sync; with a non-failing sink exactly one release per
outstanding code is emitted, and a second call in a row emits no
releases. -/
theorem release_all_roundtrip (acts : List HAct) (wf : Nat → Bool) :
    (release_all_return wf (ledgerAfter acts)).1 = ledgerAfter acts ∧
    (release_all_return wf (ledgerAfter acts)).2.1 = [] ∧
    (release_all_return wf (ledgerAfter acts)).2.2 =
      ((ledgerAfter acts).filter (fun c => !wf c)).map
        (fun c => OutEvent.write EV_KEY c 0) ++ [OutEvent.syn] ∧
    (ledgerAfter acts).Nodup ∧
    (∀ c : Nat,
      ((release_all_return (fun _ => false) (ledgerAfter acts)).2.2).count
          (OutEvent.write EV_KEY c 0) =
        if c ∈ ledgerAfter acts then 1 else 0) ∧
    release_all_return wf ((release_all_return wf (ledgerAfter acts)).2.1) =
      ([], [], [OutEvent.syn]) := by
  refine ⟨rfl, rfl, by simp [release_all_return, releaseLoop_eq],
    ledgerAfter_nodup acts, ?_, rfl⟩
  intro c
  have hinj : Function.Injective (fun c : Nat => OutEvent.write EV_KEY c 0) := by
    intro a b hab
    simpa using hab
  have hsyn : ([OutEvent.syn]).count (OutEvent.write EV_KEY c 0) = 0 :=
    List.count_eq_zero.mpr (by simp)
  simp only [release_all_return, releaseLoop_all_ok, List.count_append, hsyn]
  rw [List.count_map_of_injective _ _ hinj]
  by_cases hc : c ∈ ledgerAfter acts
  · simp [hc, List.count_eq_one_of_mem (ledgerAfter_nodup acts) hc]
  · simp [hc, List.count_eq_zero.mpr hc]

/-- C7: a `combo` step whose raw keys parse to `codes` (and whose writes
succeed) emits a down event per code in listed order, then an up event
per code in reverse order, then exactly one sync, leaving the ledger
unchanged. -/
theorem combo_order (wf : Nat → Bool) (raws : List String) (codes : List Nat)
    (s : WState) (h1 : raws.mapM parse_macro_key = .ok codes)
    (h2 : ∀ c ∈ codes, wf c = false) :
    do_step wf (.combo raws) false s =
      (.ok (), ⟨s.hold,
        s.trace ++ codes.map (fun c => OutEvent.write EV_KEY c 1)
          ++ codes.reverse.map (fun c => OutEvent.write EV_KEY c 0)
          ++ [OutEvent.syn]⟩) := by
  have h2r : ∀ c ∈ codes.reverse, wf c = false := fun c hc =>
    h2 c (List.mem_reverse.mp hc)
  have hstep : do_step wf (.combo raws) false s = do_step_active wf (.combo raws) s := rfl
  have hact : do_step_active wf (.combo raws) s =
      seqW (writeAll wf 1 codes s) (fun s1 =>
      seqW (writeAll wf 0 codes.reverse s1) (fun s2 => (.ok (), synS s2))) := by
    simp only [do_step_active]
    rw [h1]
  rw [hstep, hact, writeAll_ok wf 1 codes s h2]
  simp only [seqW]
  rw [writeAll_ok wf 0 codes.reverse _ h2r]
  simp [seqW, synS, List.append_assoc]

/-- C7 witness: `Combo{keys=[Key.ctrl, c]}` emits down(ctrl), down(c),
up(c), up(ctrl), sync. -/
theorem combo_order_witness :
    do_step (fun _ => false) (.combo ["Key.ctrl", "c"]) false ⟨[], []⟩ =
      (.ok (), ⟨[], [OutEvent.write EV_KEY KEY_LEFTCTRL 1, OutEvent.write EV_KEY 46 1,
        OutEvent.write EV_KEY 46 0, OutEvent.write EV_KEY KEY_LEFTCTRL 0,
        OutEvent.syn]⟩) := by
  have h := combo_order (fun _ => false) ["Key.ctrl", "c"] [KEY_LEFTCTRL, 46] ⟨[], []⟩
    (by decide) (by decide)
  simpa using h

/-- C8: every non-`wait` step checks the cancellation signal before its
first device write: if the signal is already set the step is skipped
entirely — no device writes, no error, ledger unchanged. -/
theorem cancel_skips_step (wf : Nat → Bool) (step : Step) (s : WState)
    (h : ∀ secs : Rat, step ≠ Step.wait secs) :
    do_step wf step true s = (.ok (), s) := by
  cases step with
  | wait secs => exact absurd rfl (h secs)
  | key raw action => rfl
  | combo keys => rfl
  | mouseClick button count => rfl
  | mouseButton button action => rfl
  | mouseMove mode x y => rfl
  | mouseScroll dy => rfl
  | other tag => rfl

/-- C8 witness: a `key` tap with cancellation already requested does
nothing. -/
theorem cancel_skips_step_witness :
    do_step (fun _ => false) (.key "a" "tap") true ⟨[5], []⟩ = (.ok (), ⟨[5], []⟩) :=
  cancel_skips_step (fun _ => false) (.key "a" "tap") ⟨[5], []⟩
    (fun _ h => Step.noConfusion h)

/-- C10: in `mouse_click` and `mouse_button` steps the button name
"left" selects BTN_LEFT and every other name — recognized or not —
silently selects BTN_RIGHT; with a non-failing sink no button name ever
raises: `mouse_click` emits `max 1 count` tap cycles and `mouse_button`
tap/press/release emit the corresponding events for that button code. -/
theorem mouse_button_mapping (wf : Nat → Bool) (button : String) (count : Int)
    (s : WState) (hw : ∀ c, wf c = false) :
    (button ≠ "left" → (if button = "left" then BTN_LEFT else BTN_RIGHT) = BTN_RIGHT) ∧
    do_step wf (.mouseClick button count) false s =
      (.ok (), ⟨s.hold, s.trace ++ (List.replicate (max 1 count).toNat
        (clickCycle (if button = "left" then BTN_LEFT else BTN_RIGHT))).flatten⟩) ∧
    do_step wf (.mouseButton button "tap") false s =
      (.ok (), ⟨s.hold,
        s.trace ++ clickCycle (if button = "left" then BTN_LEFT else BTN_RIGHT)⟩) ∧
    do_step wf (.mouseButton button "press") false s =
      (.ok (), ⟨mark_down (if button = "left" then BTN_LEFT else BTN_RIGHT) s.hold,
        s.trace ++ [OutEvent.write EV_KEY
          (if button = "left" then BTN_LEFT else BTN_RIGHT) 1, OutEvent.syn]⟩) ∧
    do_step wf (.mouseButton button "release") false s =
      (.ok (), ⟨mark_up (if button = "left" then BTN_LEFT else BTN_RIGHT) s.hold,
        s.trace ++ [OutEvent.write EV_KEY
          (if button = "left" then BTN_LEFT else BTN_RIGHT) 0, OutEvent.syn]⟩) := by
  refine ⟨fun h => if_neg h, ?_, ?_, ?_, ?_⟩
  · have hc : do_step wf (.mouseClick button count) false s =
        clickLoop wf (if button = "left" then BTN_LEFT else BTN_RIGHT)
          (max 1 count).toNat s := rfl
    rw [hc, clickLoop_ok wf _ (hw _)]
  · have ht : do_step wf (.mouseButton button "tap") false s =
        seqW (emit1 wf EV_KEY (if button = "left" then BTN_LEFT else BTN_RIGHT) 1 s)
          (fun s1 =>
            seqW (emit1 wf EV_KEY (if button = "left" then BTN_LEFT else BTN_RIGHT) 0 s1)
              (fun s2 => (.ok (), synS s2))) := rfl
    rw [ht]
    simp [seqW, emit1, hw, synS, clickCycle, List.append_assoc]
  · have hp : do_step wf (.mouseButton button "press") false s =
        seqW (emit1 wf EV_KEY (if button = "left" then BTN_LEFT else BTN_RIGHT) 1 s)
          (fun s1 =>
            (.ok (), ⟨mark_down (if button = "left" then BTN_LEFT else BTN_RIGHT) s1.hold,
              (synS s1).trace⟩)) := rfl
    rw [hp]
    simp [seqW, emit1, hw, synS, List.append_assoc]
  · have hr : do_step wf (.mouseButton button "release") false s =
        seqW (emit1 wf EV_KEY (if button = "left" then BTN_LEFT else BTN_RIGHT) 0 s)
          (fun s1 =>
            (.ok (), ⟨mark_up (if button = "left" then BTN_LEFT else BTN_RIGHT) s1.hold,
              (synS s1).trace⟩)) := rfl
    rw [hr]
    simp [seqW, emit1, hw, synS, List.append_assoc]

/-- C10 witness: the unrecognized button name "middle" maps to BTN_RIGHT
and `mouse_click` with it succeeds, emitting two right-button cycles. -/
theorem mouse_button_mapping_witness :
    do_step (fun _ => false) (.mouseClick "middle" 2) false ⟨[], []⟩ =
      (.ok (), ⟨[], [OutEvent.write EV_KEY BTN_RIGHT 1, OutEvent.write EV_KEY BTN_RIGHT 0,
        OutEvent.syn, OutEvent.write EV_KEY BTN_RIGHT 1, OutEvent.write EV_KEY BTN_RIGHT 0,
        OutEvent.syn]⟩) := by
  have h := (mouse_button_mapping (fun _ => false) "middle" 2 ⟨[], []⟩ (fun _ => rfl)).2.1
  simpa using h

theorem hotkey_satisfied_iff (p : List Nat) (r : List (List Nat)) :
    hotkey_satisfied p r = true ↔ ∀ alt ∈ r, ∃ c ∈ alt, c ∈ p := by
  simp [hotkey_satisfied, List.all_eq_true, List.any_eq_true, List.elem_iff]

/-- C4: `hotkey_satisfied` is a pure function that is true iff every
alternative-set of the requirement meets the pressed-set; for a spec
that parses, a pressed-set containing exactly one member of each
alternative-set (and nothing else) satisfies the requirement, and
removing any single code from it un-satisfies the requirement. -/
theorem hotkey_one_member_of_each (spec : String) (req : List (List Nat))
    (pressed : List Nat)
    (hp : parse_hotkey spec = .ok req)
    (hnd : pressed.Nodup)
    (hcover : ∀ c ∈ pressed, ∃ alt ∈ req, c ∈ alt)
    (hex : ∀ alt ∈ req, ∃ c ∈ alt, c ∈ pressed)
    (huniq : ∀ alt ∈ req, ∀ x ∈ alt, ∀ y ∈ alt, x ∈ pressed → y ∈ pressed → x = y) :
    (∀ (p : List Nat) (r : List (List Nat)),
      hotkey_satisfied p r = true ↔ ∀ alt ∈ r, ∃ c ∈ alt, c ∈ p) ∧
    hotkey_satisfied pressed req = true ∧
    ∀ c ∈ pressed, hotkey_satisfied (pressed.erase c) req = false := by
  refine ⟨hotkey_satisfied_iff, (hotkey_satisfied_iff pressed req).mpr hex, ?_⟩
  intro c hc
  rcases hcover c hc with ⟨alt, halt, hcalt⟩
  cases hval : hotkey_satisfied (pressed.erase c) req with
  | false => rfl
  | true =>
    exfalso
    obtain ⟨y, hyalt, hymem⟩ := (hotkey_satisfied_iff _ _).mp hval alt halt
    obtain ⟨hne, hyp⟩ := hnd.mem_erase_iff.mp hymem
    exact hne (huniq alt halt y hyalt c hcalt hyp hc)

/-- C4 witness: spec `<ctrl>+e`, pressed-set {left-ctrl, e}: satisfied;
removing left-ctrl un-satisfies it. -/
theorem hotkey_one_member_of_each_witness :
    hotkey_satisfied [KEY_LEFTCTRL, KEY_E] [[KEY_LEFTCTRL, KEY_RIGHTCTRL], [KEY_E]] = true ∧
    hotkey_satisfied ([KEY_LEFTCTRL, KEY_E].erase KEY_LEFTCTRL)
      [[KEY_LEFTCTRL, KEY_RIGHTCTRL], [KEY_E]] = false := by
  have h := hotkey_one_member_of_each "<ctrl>+e" [[KEY_LEFTCTRL, KEY_RIGHTCTRL], [KEY_E]]
    [KEY_LEFTCTRL, KEY_E] (by decide) (by decide) (by decide) (by decide) (by decide)
  exact ⟨h.2.1, h.2.2 KEY_LEFTCTRL (by decide)⟩

theorem wait_with_pause_nonpos : ∀ (ts : List Tick) (r : Rat), r ≤ 0 →
    wait_with_pause r ts = r := by
  intro ts
  induction ts with
  | nil => intro r _; rfl
  | cons t ts _ => intro r h; simp [wait_with_pause, h]

theorem runningElapsed_cons (t : Tick) (ts : List Tick) :
    runningElapsed (t :: ts) = (if t.run then t.elapsed else 0) + runningElapsed ts := by
  by_cases h : t.run
  · simp [runningElapsed, List.filter_cons, h]
  · simp [runningElapsed, List.filter_cons, h]

theorem runningElapsed_nonneg (ts : List Tick) (h : ∀ t ∈ ts, 0 ≤ t.elapsed) :
    0 ≤ runningElapsed ts := by
  apply List.sum_nonneg
  intro x hx
  obtain ⟨t, ht, rfl⟩ := List.mem_map.mp hx
  exact h t (List.mem_filter.mp ht).1

theorem wait_with_pause_ge : ∀ (ts : List Tick) (r : Rat),
    (∀ t ∈ ts, 0 ≤ t.elapsed) → r - runningElapsed ts ≤ wait_with_pause r ts := by
  intro ts
  induction ts with
  | nil => intro r _; simp [wait_with_pause, runningElapsed]
  | cons t ts ih =>
    intro r h
    have ht : 0 ≤ t.elapsed := h t (List.mem_cons_self t ts)
    have hts : ∀ u ∈ ts, 0 ≤ u.elapsed := fun u hu => h u (List.mem_cons_of_mem t hu)
    have hsum : 0 ≤ runningElapsed ts := runningElapsed_nonneg ts hts
    have hsum' : 0 ≤ runningElapsed (t :: ts) := by
      rw [runningElapsed_cons]
      by_cases hrun : t.run
      · simp only [hrun, if_pos]
        linarith
      · simp only [hrun, if_neg, Bool.false_eq_true, not_false_iff]
        linarith
    unfold wait_with_pause
    split_ifs with h1 h2 h3 h4
    · linarith
    · linarith
    · rw [runningElapsed_cons]
      have := ih r hts
      simp only [h3, if_neg, Bool.false_eq_true, not_false_iff]
      linarith
    · linarith
    · have hrun : t.run = true := by
        cases hr : t.run
        · exact absurd hr h3
        · rfl
      rw [runningElapsed_cons]
      have := ih (r - t.elapsed) hts
      simp only [hrun, if_pos]
      linarith

/-- C5: in the pausable wait, a tick observed with the stop event set
exits immediately with the remaining duration untouched; a tick with the
pause gate closed (run event cleared, not stopped) consumes none of the
remaining duration; a cancellation observed during a running tick's
sleep also exits without consuming; and over any whole run the remaining
duration decreases by at most the wall-clock time of the ticks taken
with the gate open — time spent paused is never counted. -/
theorem wait_pause_semantics (r : Rat) (t : Tick) (ts : List Tick)
    (h : ∀ u ∈ t :: ts, 0 ≤ u.elapsed) :
    (t.stop = true → wait_with_pause r (t :: ts) = r) ∧
    (t.stop = false → t.run = false →
      wait_with_pause r (t :: ts) = wait_with_pause r ts) ∧
    (t.stop = false → t.run = true → t.stopIn = true →
      wait_with_pause r (t :: ts) = r) ∧
    r - runningElapsed ts ≤ wait_with_pause r ts := by
  refine ⟨?_, ?_, ?_, ?_⟩
  · intro hs
    by_cases hr : r ≤ 0
    · simp [wait_with_pause, hr]
    · simp [wait_with_pause, hr, hs]
  · intro hs hrun
    by_cases hr : r ≤ 0
    · rw [wait_with_pause_nonpos (t :: ts) r hr, wait_with_pause_nonpos ts r hr]
    · simp [wait_with_pause, hr, hs, hrun]
  · intro hs hrun hin
    by_cases hr : r ≤ 0
    · simp [wait_with_pause, hr]
    · simp [wait_with_pause, hr, hs, hrun, hin]
  · exact wait_with_pause_ge ts r (fun u hu => h u (List.mem_cons_of_mem t hu))

/-- C5 witness: a paused tick leaves a 20-unit wait untouched, and a
single running tick of elapsed 1 leaves at least 19 remaining. -/
theorem wait_pause_semantics_witness :
    wait_with_pause 20 [⟨false, false, false, 0⟩, ⟨false, true, false, 1⟩] =
      wait_with_pause 20 [⟨false, true, false, 1⟩] ∧
    (20 : Rat) - runningElapsed [⟨false, true, false, 1⟩] ≤
      wait_with_pause 20 [⟨false, true, false, 1⟩] := by
  have h := wait_pause_semantics 20 ⟨false, false, false, 0⟩ [⟨false, true, false, 1⟩]
    (by decide)
  exact ⟨h.2.1 rfl rfl, h.2.2.2⟩

theorem resumeLoop_ok (wf : Nat → Bool) :
    ∀ (cs held : List Nat) (tr : List OutEvent),
      (∀ x ∈ cs, wf x = false) → cs.Nodup → (∀ x ∈ cs, x ∉ held) →
      resumeLoop wf cs held tr =
        (held ++ cs, tr ++ cs.map (fun x => OutEvent.write EV_KEY x 1)) := by
  intro cs
  induction cs with
  | nil => intro held tr _ _ _; simp [resumeLoop]
  | cons c cs ih =>
    intro held tr h hnd hmem
    have hc : wf c = false := h c (List.mem_cons_self c cs)
    have hcm : c ∉ held := hmem c (List.mem_cons_self c cs)
    have hmd : mark_down c held = held ++ [c] := by
      simp [mark_down, setAdd, hcm]
    have hrest : ∀ x ∈ cs, x ∉ held ++ [c] := by
      intro x hx hx'
      rcases List.mem_append.mp hx' with hxh | hxc
      · exact hmem x (List.mem_cons_of_mem c hx) hxh
      · rcases List.mem_singleton.mp hxc with rfl
        exact (List.nodup_cons.mp hnd).1 hx
    rw [resumeLoop, if_neg (by simp [hc]), hmd,
      ih (held ++ [c]) (tr ++ [OutEvent.write EV_KEY c 1])
        (fun x hx => h x (List.mem_cons_of_mem c hx)) (List.nodup_cons.mp hnd).2 hrest]
    simp [List.append_assoc]

/-- C6: pausing while the ledger holds some codes force-releases them all
(ledger emptied, one release each, one sync) and stashes them; a second
pause in a row changes nothing; the subsequent resume re-emits exactly
one down event per stashed code, re-records each in the ledger, issues
one sync and clears the stash, so the ledger again contains exactly the
codes held before the pause; and pause is a no-op whenever the
controller is not running or already paused. -/
theorem pause_resume_roundtrip (wf : Nat → Bool) (c : Ctl)
    (hrun : c.running = true) (hre : c.runEv = true)
    (hnd : c.hold.Nodup) (hw : ∀ x ∈ c.hold, wf x = false) :
    pause wf c = ⟨true, false, c.stopEv, [], c.hold,
      c.trace ++ c.hold.map (fun x => OutEvent.write EV_KEY x 0) ++ [OutEvent.syn]⟩ ∧
    pause wf (pause wf c) = pause wf c ∧
    resume wf (pause wf c) = ⟨true, true, c.stopEv, c.hold, [],
      c.trace ++ c.hold.map (fun x => OutEvent.write EV_KEY x 0) ++ [OutEvent.syn]
        ++ c.hold.map (fun x => OutEvent.write EV_KEY x 1) ++ [OutEvent.syn]⟩ ∧
    (∀ d : Ctl, d.running = false ∨ is_paused d = true → pause wf d = d) := by
  have hfilter : c.hold.filter (fun x => !wf x) = c.hold :=
    List.filter_eq_self.mpr (fun x hx => by simp [hw x hx])
  have h1 : pause wf c = ⟨true, false, c.stopEv, [], c.hold,
      c.trace ++ c.hold.map (fun x => OutEvent.write EV_KEY x 0) ++ [OutEvent.syn]⟩ := by
    simp [pause, is_paused, hrun, hre, release_all_return, releaseLoop_eq, hfilter,
      List.append_assoc]
  refine ⟨h1, ?_, ?_, ?_⟩
  · rw [h1]
    simp [pause, is_paused]
  · rw [h1]
    rw [resume, if_neg (by simp [is_paused])]
    rw [resumeLoop_ok wf c.hold [] _ hw hnd (fun x _ => List.not_mem_nil x)]
    simp [List.append_assoc]
  · intro d hd
    rcases hd with hd | hd
    · simp [pause, hd]
    · simp [pause, hd]

/-- C6 witness: pausing with codes 5 and 6 held releases both and
stashes them; resuming re-presses both, restoring the ledger. -/
theorem pause_resume_roundtrip_witness :
    pause (fun _ => false) ⟨true, true, false, [5, 6], [], []⟩ =
      ⟨true, false, false, [], [5, 6],
        [OutEvent.write EV_KEY 5 0, OutEvent.write EV_KEY 6 0, OutEvent.syn]⟩ ∧
    resume (fun _ => false) (pause (fun _ => false) ⟨true, true, false, [5, 6], [], []⟩) =
      ⟨true, true, false, [5, 6], [],
        [OutEvent.write EV_KEY 5 0, OutEvent.write EV_KEY 6 0, OutEvent.syn,
         OutEvent.write EV_KEY 5 1, OutEvent.write EV_KEY 6 1, OutEvent.syn]⟩ := by
  have h := pause_resume_roundtrip (fun _ => false) ⟨true, true, false, [5, 6], [], []⟩
    rfl rfl (by decide) (by decide)
  exact ⟨by simpa using h.1, by simpa using h.2.2.1⟩

theorem listenStep_fire_iff (req : List (List Nat)) (s : LState) (e : KEv) :
    (listenStep req s e).2 = true ↔
      (e.typ = EV_KEY ∧ hotkey_satisfied (listenStep req s e).1.pressed req = true ∧
        s.armed = true) := by
  by_cases ht : e.typ = EV_KEY
  · simp [listenStep, ht, Bool.and_eq_true, and_assoc]
  · simp [listenStep, ht]

theorem listenStep_armed_eq (req : List (List Nat)) (s : LState) (e : KEv)
    (ht : e.typ = EV_KEY) :
    (listenStep req s e).1.armed =
      !hotkey_satisfied (listenStep req s e).1.pressed req := by
  simp [listenStep, ht]

theorem listenStep_repeat_pressed (req : List (List Nat)) (s : LState) (e : KEv)
    (hv : e.value = 2) : (listenStep req s e).1.pressed = s.pressed := by
  by_cases ht : e.typ = EV_KEY
  · simp [listenStep, ht, hv]
  · simp [listenStep, ht]

theorem listen_disarmed (req : List (List Nat)) :
    ∀ (evs : List KEv) (s : LState), s.armed = false → allSat req s evs = true →
      (listenRun req s evs).2 = 0 ∧ (listenRun req s evs).1.armed = false := by
  intro evs
  induction evs with
  | nil => intro s h _; exact ⟨rfl, h⟩
  | cons e es ih =>
    intro s h hsat
    obtain ⟨hsat1, hsats⟩ := by
      have := hsat
      rw [allSat, Bool.and_eq_true] at this
      exact this
    have hfire : (listenStep req s e).2 = false := by
      cases hf : (listenStep req s e).2
      · rfl
      · have := (listenStep_fire_iff req s e).mp hf
        rw [h] at this
        exact absurd this.2.2 (by simp)
    have harmed : (listenStep req s e).1.armed = false := by
      by_cases ht : e.typ = EV_KEY
      · rw [listenStep_armed_eq req s e ht, hsat1]
        rfl
      · have : (listenStep req s e).1 = s := by simp [listenStep, ht]
        rw [this, h]
    have := ih (listenStep req s e).1 harmed hsats
    rw [listenRun]
    simp only [hfire, if_neg, Bool.false_eq_true, not_false_iff]
    exact ⟨by simpa using this.1, this.2⟩

/-- C3: the listener fires a hotkey's action exactly on a key event that
leaves the chord satisfied while the hotkey is armed; after any key
event the armed flag equals the negation of "chord satisfied", so it is
re-armed exactly when the chord becomes unsatisfied; repeat events
(value 2) never change the pressed-set; and from a disarmed state, as
long as the chord stays satisfied — however many repeat events occur —
no further action fires and the flag stays disarmed, giving exactly one
action per physical press. -/
theorem listener_edge_trigger (req : List (List Nat)) :
    (∀ (s : LState) (e : KEv), (listenStep req s e).2 = true ↔
      (e.typ = EV_KEY ∧ hotkey_satisfied (listenStep req s e).1.pressed req = true ∧
        s.armed = true)) ∧
    (∀ (s : LState) (e : KEv), e.typ = EV_KEY →
      (listenStep req s e).1.armed =
        !hotkey_satisfied (listenStep req s e).1.pressed req) ∧
    (∀ (s : LState) (e : KEv), e.value = 2 →
      (listenStep req s e).1.pressed = s.pressed) ∧
    (∀ (evs : List KEv) (s : LState), s.armed = false → allSat req s evs = true →
      (listenRun req s evs).2 = 0 ∧ (listenRun req s evs).1.armed = false) :=
  ⟨listenStep_fire_iff req, listenStep_armed_eq req, listenStep_repeat_pressed req,
    listen_disarmed req⟩

/-- C3 witness: with chord ctrl+e, pressing e while ctrl is held fires
once; two subsequent repeat events while the chord stays satisfied fire
nothing and leave the hotkey disarmed. -/
theorem listener_edge_trigger_witness :
    (listenStep [[KEY_LEFTCTRL, KEY_RIGHTCTRL], [KEY_E]]
      ⟨[KEY_LEFTCTRL], true⟩ ⟨EV_KEY, KEY_E, 1⟩).2 = true ∧
    (listenRun [[KEY_LEFTCTRL, KEY_RIGHTCTRL], [KEY_E]]
      ⟨[KEY_LEFTCTRL, KEY_E], false⟩ [⟨EV_KEY, KEY_E, 2⟩, ⟨EV_KEY, KEY_E, 2⟩]).2 = 0 := by
  have h := listener_edge_trigger [[KEY_LEFTCTRL, KEY_RIGHTCTRL], [KEY_E]]
  exact ⟨(h.1 ⟨[KEY_LEFTCTRL], true⟩ ⟨EV_KEY, KEY_E, 1⟩).mpr ⟨rfl, by decide, rfl⟩,
    (h.2.2.2 [⟨EV_KEY, KEY_E, 2⟩, ⟨EV_KEY, KEY_E, 2⟩] ⟨[KEY_LEFTCTRL, KEY_E], false⟩
      rfl (by decide)).1⟩

/-- C9 counterexample: parsing the empty hotkey specification does not
fail — `parse_hotkey` silently returns the empty requirement (the
empty-trigger error is raised by the `MacroTool` constructor, not by the
parser). -/
theorem parse_hotkey_empty_counterexample : parse_hotkey "" = .ok [] := by decide

/-- C9 (amended): hotkey parsing fails for every multi-character token
that is neither a recognized bracketed modifier nor of the bracketed
`<f...>` shape, and for every unrecognized single character; a
`<f...>`-shaped token fails whenever its bracket content does not parse
as a (whitespace/sign/underscore-lenient) Python integer naming an
existing F-key — but empty input is not an error (it yields the empty
requirement), and lenient integer contents such as `<f 12>` do parse. -/
theorem parse_hotkey_error_cases :
    parse_hotkey "" = .ok [] ∧
    parse_hotkey "<f 12>" = .ok [[88]] ∧
    (∀ p : List Char, 2 ≤ p.length →
      p ≠ "<ctrl>".toList → p ≠ "<control>".toList → p ≠ "<shift>".toList →
      p ≠ "<alt>".toList → p ≠ "<meta>".toList → p ≠ "<super>".toList →
      p ≠ "<win>".toList → ¬("<f".toList.isPrefixOf p ∧ ">".toList.isSuffixOf p) →
      parse_hotkey_token p = .error "Unsupported hotkey token") ∧
    (∀ c : Char, parse_hotkey_token [c] = (char_to_keycode c).map (fun k => [k])) ∧
    (∀ ch : Char, ¬('a' ≤ ch.toLower ∧ ch.toLower ≤ 'z') →
      ¬('0' ≤ ch.toLower ∧ ch.toLower ≤ '9') → ch.toLower ≠ ' ' →
      punctCode ch.toLower = none →
      char_to_keycode ch = .error "Unsupported char key") ∧
    (∀ p : List Char, "<f".toList.isPrefixOf p = true → ">".toList.isSuffixOf p = true →
      (pyInt? ((p.drop 2).dropLast) = none →
        parse_hotkey_token p = .error "invalid literal for int()") ∧
      (∀ n : Int, pyInt? ((p.drop 2).dropLast) = some n → fKeyCode n = none →
        parse_hotkey_token p = .error "AttributeError: KEY_F out of range")) := by
  refine ⟨by decide, by decide, ?_, ?_, ?_, ?_⟩
  · intro p hlen h1 h2 h3 h4 h5 h6 h7 h8
    match p, hlen with
    | a :: b :: rest, _ =>
      rw [parse_hotkey_token, if_neg (by rintro (h | h) <;> simp_all), if_neg h3,
        if_neg h4, if_neg (by rintro (h | h | h) <;> simp_all), if_neg h8]
      intro c' hc'
      simp at hc'
  · intro c
    have hpre : ("<f".toList.isPrefixOf [c]) = false := by
      simp [List.isPrefixOf]
    rw [parse_hotkey_token,
      if_neg (by rintro (h | h) <;> simp at h),
      if_neg (by intro h; simp at h),
      if_neg (by intro h; simp at h),
      if_neg (by rintro (h | h | h) <;> simp at h),
      if_neg (by rintro ⟨hp, _⟩; rw [hpre] at hp; exact Bool.noConfusion hp)]
  · intro ch hl hd hs hpunct
    rw [char_to_keycode]
    simp only [if_neg hl, if_neg hd, if_neg hs, hpunct]
  · intro p hpre hsuf
    have hm1 : ¬(p = "<ctrl>".toList ∨ p = "<control>".toList) := by
      rintro (rfl | rfl) <;> revert hpre <;> decide
    have hm2 : p ≠ "<shift>".toList := by rintro rfl; revert hpre; decide
    have hm3 : p ≠ "<alt>".toList := by rintro rfl; revert hpre; decide
    have hm4 : ¬(p = "<meta>".toList ∨ p = "<super>".toList ∨ p = "<win>".toList) := by
      rintro (rfl | rfl | rfl) <;> revert hpre <;> decide
    have hfb : parse_hotkey_token p =
        (match pyInt? ((p.drop 2).dropLast) with
         | none => Except.error "invalid literal for int()"
         | some m =>
           match fKeyCode m with
           | some k => Except.ok [k]
           | none => Except.error "AttributeError: KEY_F out of range") := by
      rw [parse_hotkey_token, if_neg hm1, if_neg hm2, if_neg hm3, if_neg hm4,
        if_pos ⟨hpre, hsuf⟩]
      intro c hc
      subst hc
      simp [List.isPrefixOf] at hpre
    constructor
    · intro hnone
      rw [hfb, hnone]
    · intro n hsome hfk
      rw [hfb, hsome]
      show (match fKeyCode n with
        | some k => Except.ok [k]
        | none => Except.error "AttributeError: KEY_F out of range") =
        Except.error "AttributeError: KEY_F out of range"
      rw [hfk]

/-- C9 witness: concrete failures — an unknown bracketed token, an
unsupported character, an `<f...>` token with no integer content, and an
`<f...>` token naming a nonexistent F-key. -/
theorem parse_hotkey_error_cases_witness :
    parse_hotkey_token "<ctrlx>".toList = .error "Unsupported hotkey token" ∧
    char_to_keycode '!' = .error "Unsupported char key" ∧
    parse_hotkey_token "<f>".toList = .error "invalid literal for int()" ∧
    parse_hotkey_token "<f99>".toList = .error "AttributeError: KEY_F out of range" := by
  have h := parse_hotkey_error_cases
  refine ⟨h.2.2.1 "<ctrlx>".toList (by decide) (by decide) (by decide) (by decide)
      (by decide) (by decide) (by decide) (by decide) (by decide),
    h.2.2.2.2.1 '!' (by decide) (by decide) (by decide) (by decide),
    (h.2.2.2.2.2 "<f>".toList (by decide) (by decide)).1 (by decide),
    (h.2.2.2.2.2 "<f99>".toList (by decide) (by decide)).2 99 (by decide) (by decide)⟩

/-- C1: on every exit path of the playback worker — natural completion
of the step sequence, observing the cancellation signal at any of its
checks, or an interpreter error propagating out of a step — the worker
performs a final release-all: its final ledger is empty, its trace is
the body's trace followed by exactly the release-all events for the
codes still held when the body ended, and every such code (whose write
does not fail) gets a release (value 0) emitted. -/
theorem worker_final_release_all (wf : Nat → Bool) (loopFlag : Bool) (steps : List Step)
    (fuel : Nat) (los : List (Bool × List StepOracle)) (os : List StepOracle)
    (s : WState) :
    (runWorker wf loopFlag steps fuel los os s).hold = [] ∧
    (runWorker wf loopFlag steps fuel los os s).trace =
      (runBody wf loopFlag steps fuel los os s).2.trace ++
        releaseLoop wf (runBody wf loopFlag steps fuel los os s).2.hold ++
        [OutEvent.syn] ∧
    ∀ c ∈ (runBody wf loopFlag steps fuel los os s).2.hold, wf c = false →
      OutEvent.write EV_KEY c 0 ∈ (runWorker wf loopFlag steps fuel los os s).trace := by
  refine ⟨rfl, rfl, ?_⟩
  intro c hc hw
  have hm := mem_releaseLoop hc hw
  exact List.mem_append.mpr (Or.inl (List.mem_append.mpr (Or.inr hm)))

/-- C1 witness: a macro that presses `a` and then fails on an unknown
step type still ends with the worker releasing `a` and an empty ledger. -/
theorem worker_final_release_all_witness :
    (runWorker (fun _ => false) false [.key "a" "press", .other "bogus"] 0 []
      [⟨false, false, false⟩, ⟨false, false, false⟩] ⟨[], []⟩).hold = [] ∧
    OutEvent.write EV_KEY 30 0 ∈
      (runWorker (fun _ => false) false [.key "a" "press", .other "bogus"] 0 []
        [⟨false, false, false⟩, ⟨false, false, false⟩] ⟨[], []⟩).trace := by
  have h := worker_final_release_all (fun _ => false) false
    [.key "a" "press", .other "bogus"] 0 []
    [⟨false, false, false⟩, ⟨false, false, false⟩] ⟨[], []⟩
  exact ⟨h.1, h.2.2 30 (by decide) rfl⟩
